import Mathlib

/-!
# Verification of the cart-event notification service core

Shallow embedding of `main.go` of the `backend-test` repository: a durable
event table (`cart_events`), an HTTP ingestion handler, a pool of workers
that atomically claim batches of pending events (`process`), notify them and
finalize them (`sendNotification`), and a graceful-shutdown sequence.

Machine-level conventions of the embedding:
* a table row (`PGCartEvent`) carries a `Nat` identifier standing for the
  random `uuid_generate_v4()` primary key; the store is the list of rows in
  insertion order, so list position is insertion order while `id` order is
  the UUID order used by `ORDER BY id`;
* the single SQL statement `WITH cte AS (SELECT ... FOR UPDATE SKIP LOCKED)
  UPDATE ... RETURNING ...` is atomic in PostgreSQL, so every concurrent run
  of workers is a serialization of atomic claim / finalize / insert
  operations; runs are modelled as lists of such operations;
* timestamps are `Nat`, string payload fields are `String`.
-/

/-- The JSON ingress payload (`CartEvent` in `main.go`). -/
structure CartEvent where
  orderType : String
  sessionId : String
  card : String
  eventDate : String
  websiteUrl : String
deriving DecidableEq, Repr

/-- The status column of `cart_events`: `varchar(20) DEFAULT 'pending'`,
taking the three values the program ever writes. -/
inductive Status where
  | pending
  | processing
  | processed
deriving DecidableEq, Repr

/-- A row of the `cart_events` table (`PGCartEvent` in `main.go`).
`id` stands for the random UUID primary key, `createdAt` for the
`CURRENT_TIMESTAMP` default. -/
structure PGCartEvent where
  id : Nat
  orderType : String
  sessionId : String
  card : String
  eventDate : String
  websiteUrl : String
  status : Status
  createdAt : Nat
deriving DecidableEq, Repr

/-- The `cart_events` table, rows listed in insertion order. -/
abbrev Store := List PGCartEvent

/-- The row created by the handler's
`INSERT INTO cart_events (order_type, session_id, card, event_date, website_url)`:
payload columns from the decoded JSON, `status` from the DDL default
`'pending'`, `created_at` from `CURRENT_TIMESTAMP`, `id` freshly generated. -/
def mkRow (i : Nat) (e : CartEvent) (now : Nat) : PGCartEvent :=
  { id := i
    orderType := e.orderType
    sessionId := e.sessionId
    card := e.card
    eventDate := e.eventDate
    websiteUrl := e.websiteUrl
    status := Status.pending
    createdAt := now }

/-- Insertion into `cart_events`; the UUID primary key rejects a duplicate
`id` (the `Exec` would fail and change nothing). -/
def insertEvent (s : Store) (i : Nat) (e : CartEvent) (now : Nat) : Store :=
  if s.any (fun r => r.id == i) then s else s ++ [mkRow i e now]

/-- `WHERE status = 'pending'` filter of the claim CTE. -/
def pendingRows (s : Store) : Store :=
  s.filter (fun r => r.status == Status.pending)

/-- `ORDER BY id` of the claim CTE. -/
def sortById (l : List PGCartEvent) : List PGCartEvent :=
  List.insertionSort (fun a b => a.id ≤ b.id) l

/-- The rows the claim CTE selects: pending rows, ordered by `id`,
`LIMIT 10`. -/
def claimSelect (s : Store) : List PGCartEvent :=
  (sortById (pendingRows s)).take 10

/-- `SELECT id FROM cte`: the identifiers the claim statement updates. -/
def claimIds (s : Store) : List Nat :=
  (claimSelect s).map PGCartEvent.id

/-- The row-level effect of
`UPDATE cart_events SET status = 'processing' WHERE id IN (SELECT id FROM cte)`. -/
def claimUpdate (ids : List Nat) (r : PGCartEvent) : PGCartEvent :=
  if r.id ∈ ids then { r with status := Status.processing } else r

/-- The whole atomic claim statement of `process` (`main.go` lines 116-129):
returns the claimed rows (with their post-`UPDATE` status, as `RETURNING`
does) together with the updated table. -/
def claimBatch (s : Store) : List PGCartEvent × Store :=
  ((claimSelect s).map (fun r => { r with status := Status.processing }),
   s.map (claimUpdate (claimIds s)))

/-- The terminal update of `sendNotification`:
`UPDATE cart_events SET status = 'processed' WHERE id = $1`. -/
def finalizeEvent (s : Store) (i : Nat) : Store :=
  s.map (fun r => if r.id == i then { r with status := Status.processed } else r)

/-- Status of the row with identifier `i`, if present. -/
def statusOf (s : Store) (i : Nat) : Option Status :=
  (s.find? (fun r => r.id == i)).map PGCartEvent.status

/-! ## Basic lemmas about the claim operation -/

theorem mem_pendingRows {s : Store} {r : PGCartEvent} :
    r ∈ pendingRows s ↔ r ∈ s ∧ r.status = Status.pending := by
  simp [pendingRows, List.mem_filter]

theorem sortById_perm (l : List PGCartEvent) : List.Perm (sortById l) l :=
  List.perm_insertionSort _ l

theorem mem_claimSelect {s : Store} {r : PGCartEvent} (h : r ∈ claimSelect s) :
    r ∈ s ∧ r.status = Status.pending := by
  have h1 : r ∈ sortById (pendingRows s) := List.take_subset _ _ h
  have h2 : r ∈ pendingRows s := (sortById_perm (pendingRows s)).mem_iff.mp h1
  exact mem_pendingRows.mp h2

theorem claimIds_sub {s : Store} {i : Nat} (h : i ∈ claimIds s) :
    ∃ r ∈ s, r.id = i ∧ r.status = Status.pending := by
  rcases List.mem_map.mp h with ⟨r, hr, hid⟩
  rcases mem_claimSelect hr with ⟨hmem, hst⟩
  exact ⟨r, hmem, hid, hst⟩

theorem claimUpdate_id (ids : List Nat) (r : PGCartEvent) :
    (claimUpdate ids r).id = r.id := by
  unfold claimUpdate
  split <;> rfl

theorem claimUpdate_status (ids : List Nat) (r : PGCartEvent) :
    (claimUpdate ids r).status = r.status ∨
      (claimUpdate ids r).status = Status.processing := by
  unfold claimUpdate
  split
  · exact Or.inr rfl
  · exact Or.inl rfl

/-- The claim statement never touches the identifier column. -/
theorem claimStore_ids (s : Store) :
    (claimBatch s).2.map PGCartEvent.id = s.map PGCartEvent.id := by
  show (s.map (claimUpdate (claimIds s))).map PGCartEvent.id = _
  rw [List.map_map]
  exact List.map_congr_left (fun r _ => claimUpdate_id _ r)

/-- The identifiers of a returned batch are exactly the identifiers the
statement selected. -/
theorem claimBatch_fst_ids (s : Store) :
    (claimBatch s).1.map PGCartEvent.id = claimIds s := by
  show ((claimSelect s).map _).map PGCartEvent.id = (claimSelect s).map PGCartEvent.id
  rw [List.map_map]
  rfl

/-- With distinct identifiers in the table, the selected identifiers are
distinct. -/
theorem claimIds_nodup {s : Store} (h : (s.map PGCartEvent.id).Nodup) :
    (claimIds s).Nodup := by
  have h1 : ((pendingRows s).map PGCartEvent.id).Nodup :=
    ((List.filter_sublist s).map PGCartEvent.id).nodup h
  have h2 : ((sortById (pendingRows s)).map PGCartEvent.id).Nodup :=
    (((sortById_perm (pendingRows s)).map PGCartEvent.id).nodup_iff).mpr h1
  exact (((sortById (pendingRows s)).take_sublist 10).map PGCartEvent.id).nodup h2

/-! ## Runs of the system

Every concurrent execution of ingestion handlers and workers against the
shared store is a serialization of the three atomic statements the program
issues: the handler's `INSERT`, the claim statement of `process`, and the
terminal `UPDATE` of `sendNotification`. A run is a list of such
operations. -/

/-- One atomic store operation of a run. The worker tag on `claim` records
which worker issued it and has no effect on the store. -/
inductive Op where
  | insert (i : Nat) (e : CartEvent) (now : Nat)
  | claim (worker : Nat)
  | finalize (i : Nat)
deriving DecidableEq, Repr

/-- Effect of one atomic operation on the table. -/
def stepStore (s : Store) : Op → Store
  | Op.insert i e now => insertEvent s i e now
  | Op.claim _ => (claimBatch s).2
  | Op.finalize i => finalizeEvent s i

/-- The batches handed out over a run: for each claim operation, the list of
row identifiers it returned to its worker. -/
def claimOutputs (s : Store) : List Op → List (List Nat)
  | [] => []
  | Op.claim w :: ops => claimIds s :: claimOutputs (stepStore s (Op.claim w)) ops
  | Op.insert i e now :: ops => claimOutputs (stepStore s (Op.insert i e now)) ops
  | Op.finalize i :: ops => claimOutputs (stepStore s (Op.finalize i)) ops

/-! ## Identifier and status bookkeeping along a run -/

theorem insertEvent_ids_nodup {s : Store} (h : (s.map PGCartEvent.id).Nodup)
    (i : Nat) (e : CartEvent) (now : Nat) :
    ((insertEvent s i e now).map PGCartEvent.id).Nodup := by
  unfold insertEvent
  split
  · exact h
  · rename_i hany
    have hi : i ∉ s.map PGCartEvent.id := by
      intro hmem
      rcases List.mem_map.mp hmem with ⟨r, hr, hid⟩
      exact hany (List.any_eq_true.mpr ⟨r, hr, by simp [hid]⟩)
    simpa [List.nodup_append, mkRow] using And.intro h hi

theorem finalizeEvent_ids (s : Store) (i : Nat) :
    (finalizeEvent s i).map PGCartEvent.id = s.map PGCartEvent.id := by
  unfold finalizeEvent
  rw [List.map_map]
  refine List.map_congr_left (fun r _ => ?_)
  show (if r.id == i then { r with status := Status.processed } else r).id = r.id
  split <;> rfl

theorem stepStore_ids_nodup {s : Store} (h : (s.map PGCartEvent.id).Nodup) :
    ∀ op : Op, ((stepStore s op).map PGCartEvent.id).Nodup
  | Op.insert i e now => insertEvent_ids_nodup h i e now
  | Op.claim _ => by rw [stepStore, claimStore_ids]; exact h
  | Op.finalize i => by rw [stepStore, finalizeEvent_ids]; exact h

/-- A list of identifiers is `settled` in a store when each of them names a
row that is no longer pending. Once settled, an identifier can never be
returned by a later claim. -/
def settled (s : Store) (ids : List Nat) : Prop :=
  ∀ i ∈ ids, ∃ r ∈ s, r.id = i ∧ r.status ≠ Status.pending

theorem settled_insert {s : Store} {ids : List Nat} (h : settled s ids)
    (i : Nat) (e : CartEvent) (now : Nat) : settled (insertEvent s i e now) ids := by
  intro j hj
  rcases h j hj with ⟨r, hr, hid, hst⟩
  refine ⟨r, ?_, hid, hst⟩
  unfold insertEvent
  split
  · exact hr
  · exact List.mem_append_left _ hr

theorem settled_claim {s : Store} {ids : List Nat} (h : settled s ids) :
    settled (claimBatch s).2 ids := by
  intro j hj
  rcases h j hj with ⟨r, hr, hid, hst⟩
  refine ⟨claimUpdate (claimIds s) r, List.mem_map_of_mem _ hr, by rw [claimUpdate_id, hid], ?_⟩
  rcases claimUpdate_status (claimIds s) r with h1 | h1 <;> rw [h1]
  · exact hst
  · intro hc
    exact Status.noConfusion hc

theorem finalizeFun_id (i : Nat) (r : PGCartEvent) :
    (if r.id == i then { r with status := Status.processed } else r).id = r.id := by
  split <;> rfl

theorem finalizeFun_status (i : Nat) (r : PGCartEvent) :
    (if r.id == i then { r with status := Status.processed } else r).status = r.status ∨
      (if r.id == i then { r with status := Status.processed } else r).status
        = Status.processed := by
  split
  · exact Or.inr rfl
  · exact Or.inl rfl

theorem settled_finalize {s : Store} {ids : List Nat} (h : settled s ids)
    (i : Nat) : settled (finalizeEvent s i) ids := by
  intro j hj
  rcases h j hj with ⟨r, hr, hid, hst⟩
  refine ⟨if r.id == i then { r with status := Status.processed } else r,
    List.mem_map_of_mem _ hr, by rw [finalizeFun_id, hid], ?_⟩
  rcases finalizeFun_status i r with h1 | h1 <;> rw [h1]
  · exact hst
  · exact fun hx => Status.noConfusion hx

/-- Freshly claimed identifiers are settled in the post-claim store. -/
theorem settled_claim_new {s : Store} : settled (claimBatch s).2 (claimIds s) := by
  intro j hj
  rcases claimIds_sub hj with ⟨r, hr, hid, _⟩
  refine ⟨claimUpdate (claimIds s) r, List.mem_map_of_mem _ hr, by rw [claimUpdate_id, hid], ?_⟩
  unfold claimUpdate
  rw [if_pos (hid ▸ hj)]
  intro hx
  exact Status.noConfusion hx

/-- In a table with distinct identifiers, a settled identifier is never
selected by a claim. -/
theorem settled_disjoint_claimIds {s : Store} {ids : List Nat}
    (hnd : (s.map PGCartEvent.id).Nodup) (h : settled s ids) :
    ∀ i ∈ ids, i ∉ claimIds s := by
  intro i hi hc
  rcases h i hi with ⟨r, hr, hid, hst⟩
  rcases claimIds_sub hc with ⟨p, hp, hpid, hpst⟩
  have : r = p := List.inj_on_of_nodup_map hnd hr hp (by rw [hid, hpid])
  exact hst (this ▸ hpst)

/-- Invariant induction behind the no-double-claim property: relative to any
already-settled set of previously claimed identifiers, the batches of the
rest of the run stay duplicate-free and disjoint from it. -/
theorem claimOutputs_nodup_aux :
    ∀ (ops : List Op) (s : Store) (acc : List Nat),
      (s.map PGCartEvent.id).Nodup → acc.Nodup → settled s acc →
      (acc ++ (claimOutputs s ops).flatten).Nodup
  | [], _, acc, _, hacc, _ => by simpa [claimOutputs] using hacc
  | Op.insert i e now :: ops, s, acc, hnd, hacc, hs => by
    rw [claimOutputs]
    exact claimOutputs_nodup_aux ops _ acc (stepStore_ids_nodup hnd _) hacc
      (settled_insert hs i e now)
  | Op.finalize i :: ops, s, acc, hnd, hacc, hs => by
    rw [claimOutputs]
    exact claimOutputs_nodup_aux ops _ acc (stepStore_ids_nodup hnd _) hacc
      (settled_finalize hs i)
  | Op.claim w :: ops, s, acc, hnd, hacc, hs => by
    rw [claimOutputs]
    have hdisj : ∀ i ∈ acc, i ∉ claimIds s := settled_disjoint_claimIds hnd hs
    have hacc' : (acc ++ claimIds s).Nodup :=
      List.nodup_append.mpr ⟨hacc, claimIds_nodup hnd, fun i hi => hdisj i hi⟩
    have hsettled' : settled (claimBatch s).2 (acc ++ claimIds s) := by
      intro j hj
      rcases List.mem_append.mp hj with hj | hj
      · exact settled_claim hs j hj
      · exact settled_claim_new j hj
    have := claimOutputs_nodup_aux ops (stepStore s (Op.claim w)) (acc ++ claimIds s)
      (stepStore_ids_nodup hnd _) hacc' hsettled'
    simpa [List.append_assoc] using this

/-! ## C1: no double-claim -/

/-- C1. For every set of inserted events and every number of concurrent
workers running against the shared store, each event is returned by the
claim operation to at most one worker across the whole run: since each claim
statement is atomic, any concurrent run is a serialization `ops`, and the
identifiers of all batches handed out over the run are pairwise distinct —
no two workers (nor the same worker twice) ever receive the same row.
Hypothesis: the table's primary-key identifiers are distinct. -/
theorem no_double_claim (s : Store) (ops : List Op)
    (h : (s.map PGCartEvent.id).Nodup) :
    ((claimOutputs s ops).flatten).Nodup := by
  simpa [claimOutputs] using
    claimOutputs_nodup_aux ops s [] h List.nodup_nil
      (fun i hi => absurd hi (List.not_mem_nil i))

/-- A concrete event payload, as in the repository README. -/
def exEvent : CartEvent :=
  { orderType := "Purchase"
    sessionId := "29827525-06c9-4b1e-9d9b-7c4584e82f56"
    card := "4433**1409"
    eventDate := "2023-01-04 13:44:52"
    websiteUrl := "https://amazon.com" }

/-- A store of two pending rows whose random identifiers are out of
insertion order: id 5 was inserted before id 3. -/
def exStore : Store := [mkRow 5 exEvent 1, mkRow 3 exEvent 2]

theorem no_double_claim_witness :
    (exStore.map PGCartEvent.id).Nodup ∧
      ((claimOutputs exStore
          [Op.claim 0, Op.insert 7 exEvent 3, Op.claim 1]).flatten).Nodup :=
  ⟨by decide, no_double_claim exStore [Op.claim 0, Op.insert 7 exEvent 3, Op.claim 1]
    (by decide)⟩

/-! ## C2: re-claiming immediately yields disjoint batches -/

/-- C2. Executing the claim operation twice in immediate succession with no
inserts in between returns two disjoint sets of rows, and the second call
returns no more rows than are still pending after the first call. -/
theorem reclaim_disjoint (s : Store) :
    List.Disjoint ((claimBatch s).1.map PGCartEvent.id)
        ((claimBatch (claimBatch s).2).1.map PGCartEvent.id) ∧
      (claimBatch (claimBatch s).2).1.length ≤ (pendingRows (claimBatch s).2).length := by
  constructor
  · intro a ha hb
    rw [claimBatch_fst_ids] at ha hb
    rcases claimIds_sub hb with ⟨r, hr, hid, hst⟩
    have hr' : r ∈ s.map (claimUpdate (claimIds s)) := hr
    rcases List.mem_map.mp hr' with ⟨r0, hr0, heq⟩
    unfold claimUpdate at heq
    by_cases hc : r0.id ∈ claimIds s
    · rw [if_pos hc] at heq
      rw [← heq] at hst
      exact Status.noConfusion hst
    · rw [if_neg hc] at heq
      subst heq
      exact hc (by rw [hid]; exact ha)
  · calc (claimBatch (claimBatch s).2).1.length
        = (claimSelect (claimBatch s).2).length := List.length_map _ _
      _ ≤ (sortById (pendingRows (claimBatch s).2)).length :=
          (List.take_sublist 10 _).length_le
      _ = (pendingRows (claimBatch s).2).length := (sortById_perm _).length_eq

/-! ## C4: status transitions are monotone and one-directional -/

/-- Position of a status along the chain
`pending → processing → processed`. -/
def statusRank : Status → Nat
  | Status.pending => 0
  | Status.processing => 1
  | Status.processed => 2

/-- In a table with distinct identifiers, a row whose identifier the claim
statement selected is itself pending. -/
theorem mem_claimIds_status {s : Store} (hnd : (s.map PGCartEvent.id).Nodup)
    {r : PGCartEvent} (hr : r ∈ s) (h : r.id ∈ claimIds s) :
    r.status = Status.pending := by
  rcases claimIds_sub h with ⟨p, hp, hpid, hpst⟩
  have : r = p := List.inj_on_of_nodup_map hnd hr hp hpid.symm
  rw [this]
  exact hpst

theorem statusRank_le_two (st : Status) : statusRank st ≤ 2 := by
  cases st <;> simp [statusRank]

/-- C4. Along the atomic operations of the core, statuses only advance along
the one-directional chain `pending → processing → processed`: every existing
row keeps its identifier and its status rank never decreases; an insert
leaves existing rows unchanged and only appends a row with status
`pending`; the claim statement rewrites a row only from `pending` to
`processing`; the terminal update rewrites a row only to `processed`.
Hypothesis: the table's primary-key identifiers are distinct. -/
theorem status_monotone (s : Store) (hnd : (s.map PGCartEvent.id).Nodup) :
    (∀ op : Op, ∀ r ∈ s, ∃ r' ∈ stepStore s op, r'.id = r.id ∧
        statusRank r.status ≤ statusRank r'.status) ∧
      (∀ i e now, ∀ r' ∈ stepStore s (Op.insert i e now),
        r' ∈ s ∨ (r' = mkRow i e now ∧ r'.status = Status.pending)) ∧
      (∀ w : Nat, ∀ r' ∈ stepStore s (Op.claim w), ∃ r ∈ s, r'.id = r.id ∧
        (r' = r ∨ (r.status = Status.pending ∧ r'.status = Status.processing))) ∧
      (∀ i : Nat, ∀ r' ∈ stepStore s (Op.finalize i), ∃ r ∈ s, r'.id = r.id ∧
        (r' = r ∨ r'.status = Status.processed)) := by
  refine ⟨?_, ?_, ?_, ?_⟩
  · intro op r hr
    cases op with
    | insert i e now =>
      refine ⟨r, ?_, rfl, Nat.le_refl _⟩
      show r ∈ insertEvent s i e now
      unfold insertEvent
      split
      · exact hr
      · exact List.mem_append_left _ hr
    | claim w =>
      refine ⟨claimUpdate (claimIds s) r, List.mem_map_of_mem _ hr,
        claimUpdate_id _ r, ?_⟩
      unfold claimUpdate
      split
      · rename_i hc
        rw [mem_claimIds_status hnd hr hc]
        exact Nat.zero_le _
      · exact Nat.le_refl _
    | finalize i =>
      refine ⟨if r.id == i then { r with status := Status.processed } else r,
        List.mem_map_of_mem _ hr, finalizeFun_id i r, ?_⟩
      split
      · exact statusRank_le_two _
      · exact Nat.le_refl _
  · intro i e now r' hr'
    have : r' ∈ insertEvent s i e now := hr'
    unfold insertEvent at this
    split at this
    · exact Or.inl this
    · rcases List.mem_append.mp this with h | h
      · exact Or.inl h
      · rcases List.mem_singleton.mp h with rfl
        exact Or.inr ⟨rfl, rfl⟩
  · intro w r' hr'
    have : r' ∈ s.map (claimUpdate (claimIds s)) := hr'
    rcases List.mem_map.mp this with ⟨r0, hr0, heq⟩
    refine ⟨r0, hr0, by rw [← heq, claimUpdate_id], ?_⟩
    unfold claimUpdate at heq
    by_cases hc : r0.id ∈ claimIds s
    · rw [if_pos hc] at heq
      exact Or.inr ⟨mem_claimIds_status hnd hr0 hc, by rw [← heq]⟩
    · rw [if_neg hc] at heq
      exact Or.inl heq.symm
  · intro i r' hr'
    have : r' ∈ s.map
        (fun r => if r.id == i then { r with status := Status.processed } else r) := hr'
    rcases List.mem_map.mp this with ⟨r0, hr0, heq⟩
    refine ⟨r0, hr0, by rw [← heq, finalizeFun_id], ?_⟩
    by_cases hc : r0.id == i
    · rw [if_pos hc] at heq
      exact Or.inr (by rw [← heq])
    · rw [if_neg hc] at heq
      exact Or.inl heq.symm

theorem status_monotone_witness :
    (exStore.map PGCartEvent.id).Nodup ∧
      (∃ r' ∈ stepStore exStore (Op.claim 0), r'.id = (mkRow 5 exEvent 1).id ∧
        statusRank (mkRow 5 exEvent 1).status ≤ statusRank r'.status) :=
  ⟨by decide, (status_monotone exStore (by decide)).1 (Op.claim 0) (mkRow 5 exEvent 1)
    (List.mem_cons_self _ _)⟩

/-! ## The row loop of `process` and `sendNotification` -/

/-- Per-cycle outcomes of the external collaborators: whether the claim
query succeeds, whether scanning the k-th returned row succeeds
(`rows.Scan`), and whether the terminal `UPDATE` for the k-th row succeeds
(`db.Exec` in `sendNotification`). -/
structure CycleEnv where
  queryOk : Bool
  scanOk : Nat → Bool
  updateOk : Nat → Bool

/-- The `for rows.Next()` loop of `process` combined with
`sendNotification`: for each returned row in order, a scan error is logged
and the row skipped (`continue`); otherwise the notifier fires (the row's
identifier is appended to the log) and the terminal update is attempted,
itself allowed to fail, after which the loop moves to the next row. `k` is
the index of the row within the batch. -/
def processRows (env : CycleEnv) : Nat → List PGCartEvent → Store × List Nat → Store × List Nat
  | _, [], acc => acc
  | k, r :: rest, (s, log) =>
    if env.scanOk k then
      processRows env (k + 1) rest
        (if env.updateOk k then finalizeEvent s r.id else s, log ++ [r.id])
    else
      processRows env (k + 1) rest (s, log)

/-- One full cycle of `process` (`main.go` lines 113-157): claim a batch and
iterate over it; a failed claim query is logged and the cycle does nothing.
Returns the updated table and the identifiers notified, in order. -/
def process (env : CycleEnv) (s : Store) : Store × List Nat :=
  if env.queryOk then
    processRows env 0 (claimBatch s).1 ((claimBatch s).2, [])
  else (s, [])

/-- The `workerEvents` loop, as long as cancellation is not signalled: each
cycle runs `process`, and the loop continues with the next cycle whatever
errors occurred inside a cycle. -/
def runWorker (envs : List CycleEnv) (s : Store) : Store :=
  envs.foldl (fun st env => (process env st).1) s

/-! ## Status tracking through the row loop -/

theorem statusOf_map {g : PGCartEvent → PGCartEvent} (hg : ∀ r, (g r).id = r.id)
    (s : Store) (i : Nat) :
    statusOf (s.map g) i = (s.find? (fun r => r.id == i)).map (fun r => (g r).status) := by
  unfold statusOf
  rw [List.find?_map]
  have he : ((fun r => r.id == i) ∘ g) = (fun r : PGCartEvent => r.id == i) :=
    funext fun r => by
      show ((g r).id == i) = (r.id == i)
      rw [hg]
  rw [he, Option.map_map]
  rfl

theorem statusOf_finalizeEvent (s : Store) (j i : Nat) :
    statusOf (finalizeEvent s j) i =
      if i = j then (statusOf s i).map (fun _ => Status.processed)
      else statusOf s i := by
  have h := statusOf_map (finalizeFun_id j) s i
  show statusOf (s.map _) i = _
  rw [h]
  rcases hfind : s.find? (fun r => r.id == i) with _ | r
  · simp [statusOf, hfind]
  · have hri : r.id = i := by simpa using List.find?_some hfind
    by_cases hij : i = j
    · subst hij
      simp [statusOf, hfind, hri]
    · have hne : ¬ r.id = j := by rw [hri]; exact hij
      simp [statusOf, hfind, hne, hij]

/-- Every identifier a claim hands out is `processing` in the post-claim
table. -/
theorem statusOf_claim_mem {s : Store} {i : Nat} (h : i ∈ claimIds s) :
    statusOf (claimBatch s).2 i = some Status.processing := by
  have hmap := statusOf_map (claimUpdate_id (claimIds s)) s i
  show statusOf (s.map _) i = _
  rw [hmap]
  rcases claimIds_sub h with ⟨r, hr, hid, _⟩
  have hsome : (s.find? (fun r => r.id == i)).isSome := by
    rw [List.find?_isSome]
    exact ⟨r, hr, by simp [hid]⟩
  rcases Option.isSome_iff_exists.mp hsome with ⟨r0, hr0⟩
  have hr0i : r0.id = i := by simpa using List.find?_some hr0
  rw [hr0]
  show some (claimUpdate (claimIds s) r0).status = _
  unfold claimUpdate
  rw [if_pos (by rw [hr0i]; exact h)]

theorem statusOf_processRows_notmem (env : CycleEnv) :
    ∀ (batch : List PGCartEvent) (k : Nat) (s : Store) (log : List Nat) (i : Nat),
      i ∉ batch.map PGCartEvent.id →
      statusOf (processRows env k batch (s, log)).1 i = statusOf s i := by
  intro batch
  induction batch with
  | nil => intro k s log i _; rfl
  | cons r rest ih =>
    intro k s log i hi
    have hir : i ≠ r.id := fun hc => hi (by rw [hc]; exact List.mem_cons_self _ _)
    have hirest : i ∉ rest.map PGCartEvent.id := fun hc => hi (List.mem_cons_of_mem _ hc)
    by_cases hsc : env.scanOk k
    · by_cases hup : env.updateOk k
      · rw [show processRows env k (r :: rest) (s, log)
            = processRows env (k + 1) rest (finalizeEvent s r.id, log ++ [r.id]) by
              simp [processRows, hsc, hup]]
        rw [ih (k + 1) _ _ i hirest, statusOf_finalizeEvent, if_neg hir]
      · rw [show processRows env k (r :: rest) (s, log)
            = processRows env (k + 1) rest (s, log ++ [r.id]) by
              simp [processRows, hsc, hup]]
        exact ih (k + 1) _ _ i hirest
    · rw [show processRows env k (r :: rest) (s, log)
          = processRows env (k + 1) rest (s, log) by simp [processRows, hsc]]
      exact ih (k + 1) _ _ i hirest

/-- Fate of the n-th row of a batch under the row loop: finalized to
`processed` exactly when both its scan and its terminal update succeed,
untouched otherwise — failures on other rows never affect it. -/
theorem statusOf_processRows_get (env : CycleEnv) :
    ∀ (batch : List PGCartEvent) (k : Nat) (s : Store) (log : List Nat),
      (batch.map PGCartEvent.id).Nodup →
      ∀ n (hn : n < batch.length),
        statusOf (processRows env k batch (s, log)).1 ((batch.get ⟨n, hn⟩).id) =
          if env.scanOk (k + n) && env.updateOk (k + n)
          then (statusOf s ((batch.get ⟨n, hn⟩).id)).map (fun _ => Status.processed)
          else statusOf s ((batch.get ⟨n, hn⟩).id) := by
  intro batch
  induction batch with
  | nil => intro k s log _ n hn; exact absurd hn (Nat.not_lt_zero n)
  | cons r rest ih =>
    intro k s log hnd n hn
    have hnd' : (r.id :: rest.map PGCartEvent.id).Nodup := hnd
    have hhead : r.id ∉ rest.map PGCartEvent.id := (List.nodup_cons.mp hnd').1
    have hndrest : (rest.map PGCartEvent.id).Nodup := (List.nodup_cons.mp hnd').2
    cases n with
    | zero =>
      have hget : (r :: rest).get ⟨0, hn⟩ = r := rfl
      rw [hget]
      by_cases hsc : env.scanOk k
      · by_cases hup : env.updateOk k
        · rw [show processRows env k (r :: rest) (s, log)
              = processRows env (k + 1) rest (finalizeEvent s r.id, log ++ [r.id]) by
                simp [processRows, hsc, hup]]
          rw [statusOf_processRows_notmem env rest (k + 1) _ _ _ hhead,
            statusOf_finalizeEvent, if_pos rfl, Nat.add_zero, if_pos (by simp [hsc, hup])]
        · rw [show processRows env k (r :: rest) (s, log)
              = processRows env (k + 1) rest (s, log ++ [r.id]) by
                simp [processRows, hsc, hup]]
          rw [statusOf_processRows_notmem env rest (k + 1) _ _ _ hhead,
            Nat.add_zero, if_neg (by simp [hup])]
      · rw [show processRows env k (r :: rest) (s, log)
            = processRows env (k + 1) rest (s, log) by simp [processRows, hsc]]
        rw [statusOf_processRows_notmem env rest (k + 1) _ _ _ hhead,
          Nat.add_zero, if_neg (by simp [hsc])]
    | succ m =>
      have hm : m < rest.length := Nat.lt_of_succ_lt_succ hn
      have hget : (r :: rest).get ⟨m + 1, hn⟩ = rest.get ⟨m, hm⟩ := rfl
      rw [hget]
      have hmem : (rest.get ⟨m, hm⟩).id ∈ rest.map PGCartEvent.id :=
        List.mem_map_of_mem _ (rest.get_mem _ _)
      have hneq : ¬ (rest.get ⟨m, hm⟩).id = r.id := fun hc => hhead (hc ▸ hmem)
      have harith : k + 1 + m = k + (m + 1) := by omega
      by_cases hsc : env.scanOk k
      · by_cases hup : env.updateOk k
        · rw [show processRows env k (r :: rest) (s, log)
              = processRows env (k + 1) rest (finalizeEvent s r.id, log ++ [r.id]) by
                simp [processRows, hsc, hup]]
          rw [ih (k + 1) _ _ hndrest m hm, harith,
            statusOf_finalizeEvent, if_neg hneq]
        · rw [show processRows env k (r :: rest) (s, log)
              = processRows env (k + 1) rest (s, log ++ [r.id]) by
                simp [processRows, hsc, hup]]
          rw [ih (k + 1) _ _ hndrest m hm, harith]
      · rw [show processRows env k (r :: rest) (s, log)
            = processRows env (k + 1) rest (s, log) by simp [processRows, hsc]]
        rw [ih (k + 1) _ _ hndrest m hm, harith]

/-! ## Ordering of a claimed batch -/

instance : IsTotal PGCartEvent (fun a b => a.id ≤ b.id) :=
  ⟨fun a b => Nat.le_total a.id b.id⟩

instance : IsTrans PGCartEvent (fun a b => a.id ≤ b.id) :=
  ⟨fun _ _ _ h1 h2 => Nat.le_trans h1 h2⟩

theorem claimIds_sorted (s : Store) : List.Sorted (· ≤ ·) (claimIds s) := by
  have h1 : List.Sorted (fun a b : PGCartEvent => a.id ≤ b.id)
      (sortById (pendingRows s)) :=
    List.sorted_insertionSort _ _
  have h2 : List.Sorted (fun a b : PGCartEvent => a.id ≤ b.id) (claimSelect s) :=
    List.Pairwise.sublist (List.take_sublist 10 _) h1
  exact List.pairwise_map.mpr h2

/-- The notification log only grows, by identifiers of scanned batch rows in
batch order. -/
theorem processRows_log (env : CycleEnv) :
    ∀ (batch : List PGCartEvent) (k : Nat) (s : Store) (log : List Nat),
      ∃ l', (processRows env k batch (s, log)).2 = log ++ l' ∧
        List.Sublist l' (batch.map PGCartEvent.id) := by
  intro batch
  induction batch with
  | nil =>
    intro k s log
    exact ⟨[], by simp [processRows], List.nil_sublist _⟩
  | cons r rest ih =>
    intro k s log
    by_cases hsc : env.scanOk k
    · rcases ih (k + 1) (if env.updateOk k then finalizeEvent s r.id else s)
        (log ++ [r.id]) with ⟨l2, hl2, hsub2⟩
      refine ⟨r.id :: l2, ?_, List.Sublist.cons₂ _ hsub2⟩
      rw [show processRows env k (r :: rest) (s, log)
          = processRows env (k + 1) rest
              (if env.updateOk k then finalizeEvent s r.id else s, log ++ [r.id]) by
            simp [processRows, hsc]]
      rw [hl2, List.append_assoc]
      rfl
    · rcases ih (k + 1) s log with ⟨l', hl', hsub⟩
      refine ⟨l', ?_, List.Sublist.cons _ hsub⟩
      rw [show processRows env k (r :: rest) (s, log)
          = processRows env (k + 1) rest (s, log) by simp [processRows, hsc]]
      exact hl'

/-! ## C3: batch selection and ordering -/

/-- C3 counterexample. `exStore` arises from inserting the event with random
identifier 5 first and the one with identifier 3 second; the claim returns
the batch in identifier order [3, 5], which differs from insertion order
(oldest-first) [5, 3]: identifier order does not coincide with insertion
order, because identifiers are random UUIDs, not sequence numbers. -/
theorem claim_insertion_order_mismatch :
    exStore = stepStore (stepStore [] (Op.insert 5 exEvent 1)) (Op.insert 3 exEvent 2) ∧
      (claimBatch exStore).1.map PGCartEvent.id = [3, 5] ∧
      (pendingRows exStore).map PGCartEvent.id = [5, 3] ∧
      (claimBatch exStore).1.map PGCartEvent.id
        ≠ (pendingRows exStore).map PGCartEvent.id :=
  ⟨rfl, by decide, by decide, by decide⟩

/-- C3 (amended). One claim returns at most 10 rows; each returned row is a
row of the table that was `pending`, returned with status `processing`; the
batch is ordered by identifier ascending, and the worker processes (and
notifies) the batch rows in that ascending identifier order. Identifier
order, however, is UUID order, not insertion order. -/
theorem claim_batch_ordered (s : Store) (env : CycleEnv) (hq : env.queryOk = true) :
    (claimBatch s).1.length ≤ 10 ∧
      (∀ r' ∈ (claimBatch s).1, r'.status = Status.processing ∧
        ∃ r ∈ s, r.status = Status.pending ∧ r.id = r'.id) ∧
      List.Sorted (· ≤ ·) ((claimBatch s).1.map PGCartEvent.id) ∧
      List.Sublist ((process env s).2) ((claimBatch s).1.map PGCartEvent.id) ∧
      List.Sorted (· ≤ ·) ((process env s).2) := by
  have hids : (claimBatch s).1.map PGCartEvent.id = claimIds s := claimBatch_fst_ids s
  have hpr : process env s = processRows env 0 (claimBatch s).1 ((claimBatch s).2, []) := by
    simp [process, hq]
  have hlog : List.Sublist ((process env s).2) ((claimBatch s).1.map PGCartEvent.id) := by
    rcases processRows_log env (claimBatch s).1 0 (claimBatch s).2 [] with ⟨l', hl', hsub⟩
    rw [hpr, hl']
    simpa using hsub
  refine ⟨?_, ?_, ?_, hlog, ?_⟩
  · show ((claimSelect s).map _).length ≤ 10
    rw [List.length_map]
    exact List.length_take_le 10 _
  · intro r' hr'
    have hmm : r' ∈ (claimSelect s).map (fun r => { r with status := Status.processing }) := hr'
    rcases List.mem_map.mp hmm with ⟨r0, hr0, heq⟩
    rcases mem_claimSelect hr0 with ⟨hmem, hst⟩
    exact ⟨by rw [← heq], r0, hmem, hst, by rw [← heq]⟩
  · rw [hids]
    exact claimIds_sorted s
  · refine List.Pairwise.sublist ?_ (claimIds_sorted s)
    rw [← hids]
    exact hlog

/-- A cycle environment in which every external call succeeds. -/
def exEnvAll : CycleEnv :=
  { queryOk := true, scanOk := fun _ => true, updateOk := fun _ => true }

theorem claim_batch_ordered_witness :
    exEnvAll.queryOk = true ∧ List.Sorted (· ≤ ·) ((process exEnvAll exStore).2) :=
  ⟨rfl, (claim_batch_ordered exStore exEnvAll rfl).2.2.2.2⟩

/-! ## C9: error resilience of the worker loop -/

/-- C9. Errors while processing a batch never stop the worker or the pool:
a failed claim query leaves the store untouched (the cycle's batch is
treated as empty) and the loop continues with the next cycle; a row whose
scan fails is skipped without being finalized (it stays `processing`); a row
whose terminal update fails stays `processing` while every other row whose
scan and update succeed still reaches `processed` — the worker moves on to
the next row. -/
theorem worker_error_resilience (s : Store) (env : CycleEnv) (envs : List CycleEnv)
    (hnd : (s.map PGCartEvent.id).Nodup) :
    (env.queryOk = false → process env s = (s, []) ∧
      runWorker (env :: envs) s = runWorker envs s) ∧
    (env.queryOk = true → ∀ n (hn : n < (claimBatch s).1.length),
      statusOf (process env s).1 (((claimBatch s).1.get ⟨n, hn⟩).id) =
        if env.scanOk n && env.updateOk n then some Status.processed
        else some Status.processing) := by
  constructor
  · intro hq
    have hp : process env s = (s, []) := by simp [process, hq]
    exact ⟨hp, by simp [runWorker, hp]⟩
  · intro hq n hn
    have hpr : process env s = processRows env 0 (claimBatch s).1 ((claimBatch s).2, []) := by
      simp [process, hq]
    have hbnd : ((claimBatch s).1.map PGCartEvent.id).Nodup := by
      rw [claimBatch_fst_ids]
      exact claimIds_nodup hnd
    have hmem : ((claimBatch s).1.get ⟨n, hn⟩).id ∈ claimIds s := by
      rw [← claimBatch_fst_ids]
      exact List.mem_map_of_mem _ (List.get_mem _ _ _)
    have hst : statusOf (claimBatch s).2 (((claimBatch s).1.get ⟨n, hn⟩).id)
        = some Status.processing := statusOf_claim_mem hmem
    rw [hpr, statusOf_processRows_get env (claimBatch s).1 0 _ [] hbnd n hn,
      Nat.zero_add, hst]
    by_cases hca : env.scanOk n && env.updateOk n
    · rw [if_pos hca, if_pos hca]
      rfl
    · rw [if_neg hca, if_neg hca]

/-- A cycle environment in which the terminal update fails for every row
after the first. -/
def exEnvFlaky : CycleEnv :=
  { queryOk := true, scanOk := fun _ => true, updateOk := fun k => k == 0 }

theorem worker_error_resilience_witness :
    statusOf (process exEnvFlaky exStore).1
        (((claimBatch exStore).1.get ⟨1, by decide⟩).id) =
      if exEnvFlaky.scanOk 1 && exEnvFlaky.updateOk 1 then some Status.processed
      else some Status.processing :=
  (worker_error_resilience exStore exEnvFlaky [] (by decide)).2 rfl 1 (by decide)

/-! ## C5: worker pool shutdown -/

/-- Phase of one worker goroutine of the pool: at the `select` on top of the
`workerEvents` loop (`idle`), inside the claim query of `process`
(`claiming`), notifying the remaining rows of its batch (`notifying`), or
returned — its deferred `wg.Done` executed (`done`). -/
inductive WPhase where
  | idle
  | claiming
  | notifying (remaining : Nat)
  | done
deriving DecidableEq, Repr

/-- Interleaving state of the pool and the shutdown goroutine of `main`:
the worker phases, whether `cancel()` has been called, and whether
`pool.wg.Wait()` has returned. -/
structure PoolState where
  workers : List WPhase
  cancelled : Bool
  waitReturned : Bool
deriving DecidableEq, Repr

/-- `NewPool` spawns `n` workers, each at the top of its loop. -/
def initPool (n : Nat) : PoolState :=
  { workers := List.replicate n WPhase.idle, cancelled := false, waitReturned := false }

/-- The `sync.WaitGroup` counter: workers whose deferred `wg.Done` has not
yet run. -/
def wgCount (st : PoolState) : Nat :=
  (st.workers.filter (fun w => !(w == WPhase.done))).length

/-- One interleaving event: the shutdown goroutine calls `cancel()`
(`sigCancel`) or observes `pool.wg.Wait()` return (`wgWaitReturn`, which the
code reaches only after `cancel()`); a worker evaluates the `select` at the
top of `workerEvents` (`loopCheck`), its claim query returns a batch of `k`
rows (`claimReturn`), or one `sendNotification` call finishes
(`notifyDone`). -/
inductive PEvent where
  | sigCancel
  | loopCheck (w : Nat)
  | claimReturn (w : Nat) (k : Nat)
  | notifyDone (w : Nat)
  | wgWaitReturn
deriving DecidableEq, Repr

def setWorker (st : PoolState) (w : Nat) (p : WPhase) : PoolState :=
  { st with workers := st.workers.set w p }

/-- Interleaving semantics of the pool: an event whose guard does not hold
changes nothing. Cancellation is observed only at the top of the loop
(`workerEvents` has no mid-batch check), and `wg.Wait` returns only when the
counter is zero. -/
def pstep (st : PoolState) : PEvent → PoolState
  | PEvent.sigCancel => { st with cancelled := true }
  | PEvent.loopCheck w =>
    match st.workers.get? w with
    | some WPhase.idle =>
      if st.cancelled then setWorker st w WPhase.done
      else setWorker st w WPhase.claiming
    | _ => st
  | PEvent.claimReturn w k =>
    match st.workers.get? w with
    | some WPhase.claiming =>
      if k = 0 then setWorker st w WPhase.idle
      else setWorker st w (WPhase.notifying k)
    | _ => st
  | PEvent.notifyDone w =>
    match st.workers.get? w with
    | some (WPhase.notifying k) =>
      if k ≤ 1 then setWorker st w WPhase.idle
      else setWorker st w (WPhase.notifying (k - 1))
    | _ => st
  | PEvent.wgWaitReturn =>
    if st.cancelled ∧ wgCount st = 0 then { st with waitReturned := true } else st

/-- A schedule of interleaved events, run from a state. -/
def runPool (st : PoolState) (evs : List PEvent) : PoolState :=
  evs.foldl pstep st

theorem wgCount_zero {st : PoolState} (h : wgCount st = 0) :
    ∀ w ∈ st.workers, w = WPhase.done := by
  intro w hw
  by_contra hne
  have hmem : w ∈ st.workers.filter (fun w => !(w == WPhase.done)) :=
    List.mem_filter.mpr ⟨hw, by simpa using hne⟩
  unfold wgCount at h
  rw [List.length_eq_zero] at h
  rw [h] at hmem
  exact absurd hmem (List.not_mem_nil w)

/-- The all-exited property, once established together with `waitReturned`,
is preserved by every event. -/
theorem pstep_preserves (st : PoolState) (ev : PEvent)
    (h : st.waitReturned = true → ∀ w ∈ st.workers, w = WPhase.done) :
    (pstep st ev).waitReturned = true → ∀ w ∈ (pstep st ev).workers, w = WPhase.done := by
  cases ev with
  | sigCancel => exact h
  | loopCheck w =>
    rcases hg : st.workers.get? w with _ | p
    · have hstep : pstep st (PEvent.loopCheck w) = st := by
        simp only [pstep]
        rw [hg]
      rw [hstep]
      exact h
    · cases p with
      | idle =>
        have hstep : pstep st (PEvent.loopCheck w)
            = if st.cancelled then setWorker st w WPhase.done
              else setWorker st w WPhase.claiming := by
          simp only [pstep]
          rw [hg]
        intro hw
        rw [hstep] at hw
        have hw' : st.waitReturned = true := by
          by_cases hc : st.cancelled
          · rw [if_pos hc] at hw
            exact hw
          · rw [if_neg hc] at hw
            exact hw
        exact absurd (h hw' WPhase.idle (List.get?_mem hg)) (by simp)
      | claiming =>
        have hstep : pstep st (PEvent.loopCheck w) = st := by
          simp only [pstep]
          rw [hg]
        rw [hstep]
        exact h
      | notifying k =>
        have hstep : pstep st (PEvent.loopCheck w) = st := by
          simp only [pstep]
          rw [hg]
        rw [hstep]
        exact h
      | done =>
        have hstep : pstep st (PEvent.loopCheck w) = st := by
          simp only [pstep]
          rw [hg]
        rw [hstep]
        exact h
  | claimReturn w k =>
    rcases hg : st.workers.get? w with _ | p
    · have hstep : pstep st (PEvent.claimReturn w k) = st := by
        simp only [pstep]
        rw [hg]
      rw [hstep]
      exact h
    · cases p with
      | claiming =>
        have hstep : pstep st (PEvent.claimReturn w k)
            = if k = 0 then setWorker st w WPhase.idle
              else setWorker st w (WPhase.notifying k) := by
          simp only [pstep]
          rw [hg]
        intro hw
        rw [hstep] at hw
        have hw' : st.waitReturned = true := by
          by_cases hc : k = 0
          · rw [if_pos hc] at hw
            exact hw
          · rw [if_neg hc] at hw
            exact hw
        exact absurd (h hw' WPhase.claiming (List.get?_mem hg)) (by simp)
      | idle =>
        have hstep : pstep st (PEvent.claimReturn w k) = st := by
          simp only [pstep]
          rw [hg]
        rw [hstep]
        exact h
      | notifying m =>
        have hstep : pstep st (PEvent.claimReturn w k) = st := by
          simp only [pstep]
          rw [hg]
        rw [hstep]
        exact h
      | done =>
        have hstep : pstep st (PEvent.claimReturn w k) = st := by
          simp only [pstep]
          rw [hg]
        rw [hstep]
        exact h
  | notifyDone w =>
    rcases hg : st.workers.get? w with _ | p
    · have hstep : pstep st (PEvent.notifyDone w) = st := by
        simp only [pstep]
        rw [hg]
      rw [hstep]
      exact h
    · cases p with
      | notifying m =>
        have hstep : pstep st (PEvent.notifyDone w)
            = if m ≤ 1 then setWorker st w WPhase.idle
              else setWorker st w (WPhase.notifying (m - 1)) := by
          simp only [pstep]
          rw [hg]
        intro hw
        rw [hstep] at hw
        have hw' : st.waitReturned = true := by
          by_cases hc : m ≤ 1
          · rw [if_pos hc] at hw
            exact hw
          · rw [if_neg hc] at hw
            exact hw
        exact absurd (h hw' (WPhase.notifying m) (List.get?_mem hg)) (by simp)
      | idle =>
        have hstep : pstep st (PEvent.notifyDone w) = st := by
          simp only [pstep]
          rw [hg]
        rw [hstep]
        exact h
      | claiming =>
        have hstep : pstep st (PEvent.notifyDone w) = st := by
          simp only [pstep]
          rw [hg]
        rw [hstep]
        exact h
      | done =>
        have hstep : pstep st (PEvent.notifyDone w) = st := by
          simp only [pstep]
          rw [hg]
        rw [hstep]
        exact h
  | wgWaitReturn =>
    by_cases hc : st.cancelled ∧ wgCount st = 0
    · have hstep : pstep st PEvent.wgWaitReturn = { st with waitReturned := true } := by
        simp only [pstep]
        rw [if_pos hc]
      rw [hstep]
      intro _
      exact wgCount_zero hc.2
    · have hstep : pstep st PEvent.wgWaitReturn = st := by
        simp only [pstep]
        rw [if_neg hc]
      rw [hstep]
      exact h

theorem runPool_inv :
    ∀ (evs : List PEvent) (st : PoolState),
      (st.waitReturned = true → ∀ w ∈ st.workers, w = WPhase.done) →
      ((runPool st evs).waitReturned = true →
        ∀ w ∈ (runPool st evs).workers, w = WPhase.done)
  | [], _, h => h
  | ev :: evs, st, h => runPool_inv evs (pstep st ev) (pstep_preserves st ev h)

/-- C5. In every interleaved schedule of the pool's workers and `main`'s
shutdown goroutine, once `pool.wg.Wait()` has returned every worker
goroutine has exited: none is inside a claim query or a notification, and
`wg.Wait` never returns while any worker is mid-notification. Since no event
resets `waitReturned`, the same theorem applied to any longer schedule shows
the workers stay exited ever after. -/
theorem shutdown_drains (n : Nat) (evs : List PEvent)
    (h : (runPool (initPool n) evs).waitReturned = true) :
    ∀ w ∈ (runPool (initPool n) evs).workers, w = WPhase.done :=
  runPool_inv evs (initPool n) (fun hw => by simp [initPool] at hw) h

theorem shutdown_drains_witness :
    (runPool (initPool 2)
        [PEvent.sigCancel, PEvent.loopCheck 0, PEvent.loopCheck 1,
         PEvent.wgWaitReturn]).waitReturned = true ∧
      (runPool (initPool 2)
          [PEvent.sigCancel, PEvent.loopCheck 0, PEvent.loopCheck 1,
           PEvent.wgWaitReturn]).workers.getD 0 WPhase.idle = WPhase.done :=
  ⟨by decide,
    shutdown_drains 2
      [PEvent.sigCancel, PEvent.loopCheck 0, PEvent.loopCheck 1, PEvent.wgWaitReturn]
      (by decide)
      ((runPool (initPool 2)
          [PEvent.sigCancel, PEvent.loopCheck 0, PEvent.loopCheck 1,
           PEvent.wgWaitReturn]).workers.getD 0 WPhase.idle)
      (by decide)⟩

/-! ## C6: order of the shutdown steps of main -/

/-- The externally visible calls of the shutdown goroutine in `main`
(`main.go` lines 212-230): `cancel()`, `pool.wg.Wait()`,
`server.Shutdown(ctx1)`, `db.Close()`. -/
inductive ShutdownStep where
  | cancelWorkers
  | waitWorkers
  | stopHTTP
  | closeStore
deriving DecidableEq, Repr

/-- The program order in which `main`'s shutdown goroutine performs its
steps after receiving the termination signal. -/
def shutdownSequence : List ShutdownStep :=
  [ShutdownStep.cancelWorkers, ShutdownStep.waitWorkers,
   ShutdownStep.stopHTTP, ShutdownStep.closeStore]

/-- C6 counterexample: the shutdown goroutine does not stop accepting HTTP
connections before draining the worker pool — `server.Shutdown` comes after
`pool.wg.Wait()` in program order, so the claimed order (HTTP first, then
drain) is false of the code. -/
theorem shutdown_order_counterexample :
    ¬ shutdownSequence.indexOf ShutdownStep.stopHTTP
        < shutdownSequence.indexOf ShutdownStep.waitWorkers := by decide

/-- C6 (amended). On a termination signal the process first signals the
worker loops and drains the worker pool, then stops accepting new HTTP
connections, and only then releases the store connection. -/
theorem shutdown_order :
    shutdownSequence.indexOf ShutdownStep.cancelWorkers
        < shutdownSequence.indexOf ShutdownStep.waitWorkers ∧
      shutdownSequence.indexOf ShutdownStep.waitWorkers
        < shutdownSequence.indexOf ShutdownStep.stopHTTP ∧
      shutdownSequence.indexOf ShutdownStep.stopHTTP
        < shutdownSequence.indexOf ShutdownStep.closeStore := by decide

/-! ## HTTP ingestion: Handler.Event and the mux -/

/-- The value the handler passes to `writeJSON`: either the
`map[string]string` error object or the plain confirmation string; `notFound`
is the body of the default mux 404. -/
inductive RespBody where
  | errorMsg (msg : String)
  | confirmation (msg : String)
  | notFound
deriving DecidableEq, Repr

/-- The `Handler.Event` method (`main.go` lines 163-191): reject non-POST
methods with 400; reject malformed JSON with 400 (`json.Decode` reports no
error for missing fields — they decode to Go zero values, so `body` is
`none` only for malformed JSON); insert the decoded event and answer 200,
or answer 500 with the store error text if the `Exec` fails. `freshId` and
`now` stand for the generated UUID and `CURRENT_TIMESTAMP`. -/
def handlerEvent (method : String) (body : Option CartEvent) (s : Store)
    (freshId now : Nat) (insertOk : Bool) (errText : String) : (Nat × RespBody) × Store :=
  if method ≠ "POST" then ((400, RespBody.errorMsg "invalid method"), s)
  else
    match body with
    | none => ((400, RespBody.errorMsg "invalid body"), s)
    | some e =>
      if insertOk then
        ((200, RespBody.confirmation "event recieved and stored"),
          insertEvent s freshId e now)
      else ((500, RespBody.errorMsg errText), s)

/-- The server's routing (`main.go` lines 204-210): the only registration is
`mux.HandleFunc("/event", h.Event)`, and in Go's `http.ServeMux` the pattern
`"/event"` matches exactly the path `/event`; every other path gets the
mux's 404. -/
def serveMux (path method : String) (body : Option CartEvent) (s : Store)
    (freshId now : Nat) (insertOk : Bool) (errText : String) : (Nat × RespBody) × Store :=
  if path = "/event" then handlerEvent method body s freshId now insertOk errText
  else ((404, RespBody.notFound), s)

/-- C7. The spec and the repository README document the creation endpoint
as `POST /api/v1/event` (the README even shows a curl against it), but the
code registers the handler at `/event`: a well-formed POST to
`/api/v1/event` gets the mux's 404, inserts nothing, and never reaches
`Handler.Event`, while the identical request to `/event` is answered 200
with the confirmation body. -/
theorem route_mismatch :
    (serveMux "/api/v1/event" "POST" (some exEvent) [] 7 1 true "").1
        = (404, RespBody.notFound) ∧
      (serveMux "/api/v1/event" "POST" (some exEvent) [] 7 1 true "").2 = [] ∧
      (serveMux "/event" "POST" (some exEvent) [] 7 1 true "").1
        = (200, RespBody.confirmation "event recieved and stored") :=
  ⟨rfl, rfl, rfl⟩

/-! ## C8: the handler does not validate field presence -/

/-- Modelled from the spec: the required-field presence check §4.3 ascribes
to the Ingestion Handler ("validates required fields are present" for
orderType, sessionId, card, eventDate, websiteUrl). No such check occurs
anywhere in `Handler.Event`; this definition follows the spec's words so the
handler can be compared against it. -/
def requiredFieldsPresent (e : CartEvent) : Bool :=
  (e.orderType != "") && (e.sessionId != "") && (e.card != "")
    && (e.eventDate != "") && (e.websiteUrl != "")

/-- The README example payload with the required field `card` absent
(decoding to the Go zero value `""`). -/
def exEventNoCard : CartEvent := { exEvent with card := "" }

/-- C8 counterexample: a payload missing the required field `card` fails the
spec's presence check, yet `Handler.Event` inserts it anyway and answers
200 — the handler performs no required-field validation. -/
theorem no_field_validation :
    requiredFieldsPresent exEventNoCard = false ∧
      (handlerEvent "POST" (some exEventNoCard) [] 7 1 true "").1.1 = 200 ∧
      (handlerEvent "POST" (some exEventNoCard) [] 7 1 true "").2
        = [mkRow 7 exEventNoCard 1] :=
  ⟨rfl, rfl, rfl⟩

/-- C8 (amended). The handler validates only that the body is well-formed
JSON, not that required fields are present: every decoded payload — fields
present or not — is inserted with status `pending` (the DDL default), and
success or failure is returned to the caller: 200 on success, 400 with no
insert on a wrong method or malformed body, 500 with no insert on store
failure. Hypothesis: the generated row identifier is fresh. -/
theorem handler_inserts_unvalidated (method : String) (body : Option CartEvent)
    (s : Store) (freshId now : Nat) (insertOk : Bool) (errText : String)
    (hfresh : ¬ s.any (fun r => r.id == freshId) = true) :
    (method ≠ "POST" → handlerEvent method body s freshId now insertOk errText
      = ((400, RespBody.errorMsg "invalid method"), s)) ∧
    (method = "POST" → body = none →
      handlerEvent method body s freshId now insertOk errText
        = ((400, RespBody.errorMsg "invalid body"), s)) ∧
    (∀ e, method = "POST" → body = some e → insertOk = true →
      handlerEvent method body s freshId now insertOk errText
          = ((200, RespBody.confirmation "event recieved and stored"),
             s ++ [mkRow freshId e now]) ∧
        (mkRow freshId e now).status = Status.pending) ∧
    (∀ e, method = "POST" → body = some e → insertOk = false →
      handlerEvent method body s freshId now insertOk errText
        = ((500, RespBody.errorMsg errText), s)) := by
  refine ⟨?_, ?_, ?_, ?_⟩
  · intro hm
    unfold handlerEvent
    rw [if_pos hm]
  · intro hm hb
    subst hm hb
    unfold handlerEvent
    rw [if_neg (by simp)]
  · intro e hm hb hok
    subst hm hb hok
    constructor
    · unfold handlerEvent
      rw [if_neg (by simp)]
      show ((200, RespBody.confirmation "event recieved and stored"),
        insertEvent s freshId e now) = _
      unfold insertEvent
      rw [if_neg hfresh]
    · rfl
  · intro e hm hb hok
    subst hm hb hok
    unfold handlerEvent
    rw [if_neg (by simp)]
    rfl

theorem handler_inserts_unvalidated_witness :
    (¬ ([] : Store).any (fun r => r.id == 7) = true) ∧
      handlerEvent "POST" (some exEventNoCard) [] 7 1 true ""
        = ((200, RespBody.confirmation "event recieved and stored"),
           [mkRow 7 exEventNoCard 1]) :=
  ⟨by decide,
    ((handler_inserts_unvalidated "POST" (some exEventNoCard) [] 7 1 true ""
      (by decide)).2.2.1 exEventNoCard rfl rfl rfl).1⟩

/-! ## C10: writeJSON sends headers before setting Content-Type -/

/-- The calls `writeJSON` makes on the `http.ResponseWriter`, in source
order (`main.go` lines 249-253): `w.WriteHeader(status)`, then
`w.Header().Add("Content-Type", "application/json")`, then
`json.NewEncoder(w).Encode(v)`. -/
inductive RWAction where
  | writeHeader (status : Nat)
  | addHeader (name value : String)
  | writeBody (body : String)
deriving DecidableEq, Repr

def writeJSON (status : Nat) (body : String) : List RWAction :=
  [RWAction.writeHeader status,
   RWAction.addHeader "Content-Type" "application/json",
   RWAction.writeBody body]

/-- Go's `http.ResponseWriter`: the mutable header map, whether the header
block has been flushed, and the wire data — status line, the header block
actually transmitted (per net/http, a snapshot of the map when
`WriteHeader` runs; changing the map afterwards has no effect), and the
body. -/
structure RWState where
  headers : List (String × String)
  headerSent : Bool
  sentStatus : Option Nat
  sentHeaders : List (String × String)
  body : String
deriving DecidableEq, Repr

def initRW : RWState :=
  { headers := [], headerSent := false, sentStatus := none, sentHeaders := [], body := "" }

def rwExec (st : RWState) : RWAction → RWState
  | RWAction.writeHeader c =>
    if st.headerSent then st
    else { st with headerSent := true, sentStatus := some c, sentHeaders := st.headers }
  | RWAction.addHeader n v => { st with headers := st.headers ++ [(n, v)] }
  | RWAction.writeBody b =>
    if st.headerSent then { st with body := st.body ++ b }
    else { st with headerSent := true, sentStatus := some 200,
                   sentHeaders := st.headers, body := st.body ++ b }

def runRW (acts : List RWAction) : RWState :=
  acts.foldl rwExec initRW

/-- C10. `writeJSON` calls `WriteHeader` — which sends the status line and
flushes the header block — before it adds the Content-Type header, so every
response it produces carries the requested status and the JSON-encoded body
but no Content-Type header at all: the header block on the wire is empty. -/
theorem writeJSON_no_content_type (status : Nat) (body : String) :
    (runRW (writeJSON status body)).sentStatus = some status ∧
      (runRW (writeJSON status body)).body = body ∧
      (runRW (writeJSON status body)).sentHeaders = [] ∧
      ∀ v, ("Content-Type", v) ∉ (runRW (writeJSON status body)).sentHeaders := by
  refine ⟨rfl, ?_, rfl, ?_⟩
  · show "" ++ body = body
    simp
  · intro v
    show ("Content-Type", v) ∉ ([] : List (String × String))
    exact List.not_mem_nil _
